import Mathlib

/-!
Verification of the mastodon-to-sqlite ingestion pipeline.

Shallow embedding of `mastodon_to_sqlite/service.py` and
`mastodon_to_sqlite/client.py`.

Conventions of the embedding:
* A raw JSON account object is an association list `Row` of string keys to
  string values (the claims only concern key presence and value preservation,
  so values are modelled as strings).
* The SQLite store is an explicit `DBState` record.  Python functions that
  mutate the store become functions `DBState → Except DBState DBState`:
  `Except.ok` is normal return, `Except.error d` is a raised exception
  (AssertionError, duplicate-table error, KeyError) carrying the store state
  `d` at the moment the exception was raised, so "no write occurred" is
  expressed as `Except.error db` with the original `db`.
* Python truthiness of optional string arguments (`None` and `""` are falsy)
  is modelled by `truthy`.
* `datetime.datetime.utcnow().isoformat()` is called exactly once per
  `save_accounts` call, in the edge-insert branch; the embedding receives
  that single sampled value as the parameter `now`.
-/

/-- A JSON object (a Python dict with string keys), as an association list. -/
abbrev Row := List (String × String)

/-- `row[k]`-style lookup: the value of key `k`, if present. -/
def lookupKey (r : Row) (k : String) : Option String :=
  (r.find? (fun kv => kv.1 == k)).map (fun kv => kv.2)

/-- The field allow-list of `transformer_account`
(`("id", "username", "url", "display_url", "note")` in the source —
note the literal is `display_url`, not `display_name`). -/
def accountAllowList : List String := ["id", "username", "url", "display_url", "note"]

/-- `transformer_account(account)` from `service.py`: compute the keys not in
the allow-list (`to_remove`) and delete them, keeping the rest. -/
def transformerAccount (account : Row) : Row :=
  let to_remove :=
    (account.map Prod.fst).filter (fun k => !(accountAllowList.contains k))
  account.filter (fun kv => !(to_remove.contains kv.1))

/-- A row of the `following` table. -/
structure Edge where
  followed_id : String
  follower_id : String
  first_seen : String
deriving DecidableEq, Repr

/-- The SQLite store: table names registered in the schema, the rows of the
`accounts` and `following` tables, the column tuples of the indexes on
`following`, and whether full-text search is enabled on `accounts`.
A table absent from `tableNames` is understood to have no rows. -/
structure DBState where
  tableNames : List String
  accounts : List Row
  following : List Edge
  followingIndexes : List (List String)
  accountsFts : Bool
deriving DecidableEq, Repr

/-- `db[name].create(...)`: raises if the table already exists. -/
def createTable (db : DBState) (name : String) : Except DBState DBState :=
  if name ∈ db.tableNames then .error db
  else .ok { db with tableNames := db.tableNames ++ [name] }

/-- `db["accounts"].enable_fts(...)` with triggers. -/
def enableFtsAccounts (db : DBState) : DBState :=
  { db with accountsFts := true }

/-- `db["following"].create_index(cols)`: the index name is derived from the
columns, so an index on the same columns already existing raises. -/
def createIndex (db : DBState) (cols : List String) : Except DBState DBState :=
  if cols ∈ db.followingIndexes then .error db
  else .ok { db with followingIndexes := db.followingIndexes ++ [cols] }

/-- `build_database(db)` from `service.py`: snapshot the table names, create
the `accounts` table (with FTS) and the `following` table when absent,
snapshot the index column tuples of `following`, and create the two
single-column indexes when absent. -/
def buildDatabase (db : DBState) : Except DBState DBState :=
  let table_names := db.tableNames
  let r1 : Except DBState DBState :=
    if "accounts" ∈ table_names then .ok db
    else
      match createTable db "accounts" with
      | .error d => .error d
      | .ok d => .ok (enableFtsAccounts d)
  match r1 with
  | .error d => .error d
  | .ok db1 =>
    match (if "following" ∈ table_names then .ok db1 else createTable db1 "following" :
        Except DBState DBState) with
    | .error d => .error d
    | .ok db2 =>
      let following_indexes := db2.followingIndexes
      match (if ["followed_id"] ∈ following_indexes then .ok db2
          else createIndex db2 ["followed_id"] : Except DBState DBState) with
      | .error d => .error d
      | .ok db3 =>
        if ["follower_id"] ∈ following_indexes then .ok db3
        else createIndex db3 ["follower_id"]

/-- Python truthiness of an optional string argument: `None` and `""` are
falsy, any other string is truthy. -/
def truthy : Option String → Bool
  | none => false
  | some s => !(s == "")

/-- `account["id"]`: `KeyError` (modelled as `Except.error ()`) when the key
is absent. -/
def accountIdValue (account : Row) : Except Unit String :=
  match lookupKey account "id" with
  | some v => .ok v
  | none => .error ()

/-- Python `x or e` for an optional-string `x` and a fallible expression `e`:
short-circuits on a truthy `x`, otherwise evaluates `e`. -/
def pyOr (x : Option String) (e : Except Unit String) : Except Unit String :=
  match x with
  | none => e
  | some s => if s == "" then e else .ok s

/-- One record of the edge-row generator in `save_accounts`:
`{"followed_id": followed_id or account["id"],
  "follower_id": follower_id or account["id"], "first_seen": first_seen}`. -/
def edgeRecord (followed_id follower_id : Option String) (first_seen : String)
    (account : Row) : Except Unit Edge :=
  match pyOr followed_id (accountIdValue account) with
  | .error e => .error e
  | .ok fv =>
    match pyOr follower_id (accountIdValue account) with
    | .error e => .error e
    | .ok gv => .ok { followed_id := fv, follower_id := gv, first_seen := first_seen }

/-- The whole edge-row generator, one record per account.  `insert_all`
consumes the generator before writing, so a `KeyError` anywhere yields an
error before any edge row is written. -/
def edgeRecords (followed_id follower_id : Option String) (first_seen : String) :
    List Row → Except Unit (List Edge)
  | [] => .ok []
  | a :: rest =>
    match edgeRecord followed_id follower_id first_seen a with
    | .error e => .error e
    | .ok ed =>
      match edgeRecords followed_id follower_id first_seen rest with
      | .error e => .error e
      | .ok eds => .ok (ed :: eds)

/-- Whether two account rows collide on the primary key `id`: SQLite treats
`NULL` primary keys as distinct, so a missing `id` never collides. -/
def sameAccountId (r record : Row) : Bool :=
  match lookupKey r "id", lookupKey record "id" with
  | some a, some b => a == b
  | _, _ => false

/-- One step of `db["accounts"].insert_all(..., pk="id", replace=True)`:
`INSERT OR REPLACE` deletes every row colliding on the primary key and
appends the new row. -/
def accountsInsertRecord (rows : List Row) (record : Row) : List Row :=
  rows.filter (fun r => !(sameAccountId r record)) ++ [record]

/-- One step of `db["following"].insert_all(..., ignore=True)`:
`INSERT OR IGNORE` keeps the existing row when one with the same
`(followed_id, follower_id)` primary key exists. -/
def followingInsertRecord (rows : List Edge) (e : Edge) : List Edge :=
  if rows.any (fun r => r.followed_id == e.followed_id && r.follower_id == e.follower_id)
  then rows
  else rows ++ [e]

/-- `save_accounts(db, accounts, followed_id=None, follower_id=None)` from
`service.py`:
`assert not (followed_id and follower_id)` (Python truthiness), then
`build_database`, then transform every account in place, then upsert the
accounts by primary key, then — when `followed_id or follower_id` is truthy —
sample the UTC timestamp once (the parameter `now`) and insert one edge row
per account with conflict-ignore semantics. -/
def saveAccounts (db : DBState) (accounts : List Row)
    (followed_id follower_id : Option String) (now : String) :
    Except DBState DBState :=
  if truthy followed_id && truthy follower_id then .error db
  else
    match buildDatabase db with
    | .error d => .error d
    | .ok db1 =>
      let transformed := accounts.map transformerAccount
      let db2 := { db1 with accounts := transformed.foldl accountsInsertRecord db1.accounts }
      if truthy followed_id || truthy follower_id then
        let first_seen := now
        match edgeRecords followed_id follower_id first_seen transformed with
        | .error _ => .error db2
        | .ok records =>
          .ok { db2 with following := records.foldl followingInsertRecord db2.following }
      else .ok db2

/-- The store state carried by a result, whether returned or raised. -/
def stateOf : Except DBState DBState → DBState
  | .ok d => d
  | .error d => d

/-!
The HTTP client, `mastodon_to_sqlite/client.py`.  URLs, paths, header names
and link-relation names are modelled as `List Char` so that Python
`str.replace` (which replaces every non-overlapping occurrence, left to
right) can be embedded exactly.
-/

/-- Worker for `pyReplace`, structurally recursive on a fuel argument: every
step consumes at least one character of `s`, so any `fuel ≥ s.length`
computes the scan completely. -/
def pyReplaceGo (pat rep : List Char) : Nat → List Char → List Char
  | 0, s => s
  | fuel + 1, s =>
    if pat = [] then s
    else
      match s with
      | [] => []
      | c :: rest =>
        if pat.isPrefixOf (c :: rest) then
          rep ++ pyReplaceGo pat rep fuel ((c :: rest).drop pat.length)
        else
          c :: pyReplaceGo pat rep fuel rest

/-- Python `s.replace(pat, rep)` on character lists: replace every
non-overlapping occurrence of `pat`, scanning left to right.  (Python treats
an empty pattern specially; the source only uses the non-empty pattern
`f"{self.api_url}/"`, and for an empty pattern this model returns `s`.) -/
def pyReplace (s pat rep : List Char) : List Char :=
  pyReplaceGo pat rep s.length s

/-- Whether `pat` occurs as a contiguous subsequence of `s`. -/
def hasOccurrence (pat : List Char) : List Char → Bool
  | [] => pat.isPrefixOf []
  | c :: rest => pat.isPrefixOf (c :: rest) || hasOccurrence pat rest

/-- An HTTP response as the client sees it: status code, the set of header
names present, the parsed link relations (`response.links`, relation name to
target URL), and the raw body. -/
structure Response where
  status : Nat
  headerNames : List (List Char)
  links : List (List Char × List Char)
  body : List Char
deriving DecidableEq, Repr

/-- `response.links[rel]["url"]`: the target URL of a link relation. -/
def lookupRel (links : List (List Char × List Char)) (rel : List Char) :
    Option (List Char) :=
  (links.find? (fun kv => kv.1 == rel)).map (fun kv => kv.2)

/-- `f"https://{domain}/api/v1"`, the `api_url` set by `MastodonClient`. -/
def apiUrlOf (domain : List Char) : List Char :=
  "https://".toList ++ domain ++ "/api/v1".toList

/-- The loop tail of `request_paginated`: `None` when the response has no
`Link` header or no `"next"` link relation; otherwise the next path, i.e.
`next_url.replace(f"{self.api_url}/", "")`. -/
def nextPathOf (apiUrl : List Char) (response : Response) : Option (List Char) :=
  if !(response.headerNames.contains "Link".toList)
      || (lookupRel response.links "next".toList).isNone then
    none
  else
    match lookupRel response.links "next".toList with
    | none => none
    | some next_url => some (pyReplace next_url (apiUrl ++ "/".toList) [])

/-- `request_paginated` from `client.py`, as the list of
(request URL, response) pairs the generator yields.  Each iteration sends
the request for the current path (the request URL is
`f"{self.api_url}/{path}"`), yields the pair, and continues with
`nextPathOf` until it is `None`.  The generator itself is unbounded; `fuel`
bounds the number of iterations unrolled, so a run that terminates within
`fuel` steps is modelled exactly. -/
def requestPaginated (apiUrl : List Char) (server : List Char → Response) :
    Nat → List Char → List (List Char × Response)
  | 0, _ => []
  | fuel + 1, path =>
    let response := server path
    (apiUrl ++ "/".toList ++ path, response) ::
      (match nextPathOf apiUrl response with
       | none => []
       | some next_path => requestPaginated apiUrl server fuel next_path)

/-- `verify_auth` from `service.py`, restricted to its decision on the
verify-credentials response (credential-file loading and the HTTP exchange
are external collaborators): `True` iff `response.status_code == 200`. -/
def verifyAuth (response : Response) : Bool :=
  if response.status == 200 then true else false

deriving instance DecidableEq for Except

/-- The empty store (a freshly opened database file). -/
def emptyDB : DBState := ⟨[], [], [], [], false⟩

/-- Bool predicate picking the `following` rows with a given
`(followed_id, follower_id)` pair. -/
def edgeIs (a b : String) (e : Edge) : Bool :=
  e.followed_id == a && e.follower_id == b

/-- Bool predicate picking the `accounts` rows with a given `id`. -/
def accIs (i : String) (r : Row) : Bool :=
  lookupKey r "id" == some i

/-! ### Claim C1: the transform allow-list -/

/-- C1 (code bug evaluated): the source allow-list of `transformer_account`
reads `display_url` where the schema (and the spec) say `display_name`.  On
the claim's own example the extra field is removed as claimed, but a present
`display_name` is deleted while a `display_url` field survives,
contradicting the `display_name` column and FTS configuration that
`build_database` sets up in the same file. -/
theorem transformerAccount_drops_display_name :
    transformerAccount
        [("id", "1"), ("username", "a"), ("extra_field", "x"), ("note", "n")] =
      [("id", "1"), ("username", "a"), ("note", "n")]
    ∧ transformerAccount
        [("id", "1"), ("username", "a"), ("display_name", "d"), ("note", "n")] =
      [("id", "1"), ("username", "a"), ("note", "n")]
    ∧ transformerAccount [("id", "1"), ("display_url", "v")] =
      [("id", "1"), ("display_url", "v")] := by
  decide

/-! ### Claim C8: verify_auth -/

/-- C8 (counterexample): `verify_auth` does not return `True` for every 2xx
status — a 204 response is 2xx yet yields `False`, because the source tests
`response.status_code == 200` exactly. -/
theorem verifyAuth_not_all_2xx :
    verifyAuth ⟨204, [], [], []⟩ = false ∧ 200 ≤ 204 ∧ 204 < 300 := by
  decide

/-- C8 (amended): `verify_auth` surfaces the authentication result as a
boolean without raising, and returns `True` exactly when the response status
is 200 (not for every 2xx status). -/
theorem verifyAuth_true_iff_200 (response : Response) :
    verifyAuth response = true ↔ response.status = 200 := by
  unfold verifyAuth
  by_cases h : response.status = 200 <;> simp [h]

/-! ### Claim C3: the mutual-exclusion assertion -/

/-- C3 (counterexample): with `followed_id` and `follower_id` both set
(non-`None`) but `followed_id = ""`, the assertion passes (Python truthiness:
`"" and "2"` is falsy) and the call writes to the store, returning normally
with schema created, an account row, and even an edge row. -/
theorem saveAccounts_both_set_empty_string_writes :
    saveAccounts emptyDB [[("id", "1")]] (some "") (some "2") "T0" =
      .ok ⟨["accounts", "following"], [[("id", "1")]],
        [⟨"1", "2", "T0"⟩], [["followed_id"], ["follower_id"]], true⟩ := by
  decide

/-- C3 (amended): whenever both `followed_id` and `follower_id` are truthy
(non-`None` and non-empty), `save_accounts` fails fast with `AssertionError`
before any write: the result is the raised error carrying the store exactly
as it was, schema not created and no table modified. -/
theorem saveAccounts_both_truthy_asserts (db : DBState) (accounts : List Row)
    (f g now : String) (hf : f ≠ "") (hg : g ≠ "") :
    saveAccounts db accounts (some f) (some g) now = .error db := by
  unfold saveAccounts
  have hf' : (f == "") = false := by simp [hf]
  have hg' : (g == "") = false := by simp [hg]
  simp [truthy, hf', hg']

/-- C3 (witness): the amended assertion fault at a concrete call. -/
theorem saveAccounts_both_truthy_asserts_witness :
    saveAccounts emptyDB [[("id", "1")]] (some "1") (some "2") "T0" =
      .error emptyDB :=
  saveAccounts_both_truthy_asserts emptyDB [[("id", "1")]] "1" "2" "T0"
    (by decide) (by decide)

/-! ### build_database: totality, frame, idempotence -/

/-- `build_database` always returns normally (every create is guarded by an
existence check), never touches table rows, and afterwards both tables and
both indexes exist. -/
lemma buildDatabase_ok (db : DBState) :
    ∃ d, buildDatabase db = .ok d ∧ d.accounts = db.accounts ∧
      d.following = db.following ∧
      "accounts" ∈ d.tableNames ∧ "following" ∈ d.tableNames ∧
      ["followed_id"] ∈ d.followingIndexes ∧ ["follower_id"] ∈ d.followingIndexes := by
  unfold buildDatabase createTable enableFtsAccounts createIndex
  by_cases h1 : "accounts" ∈ db.tableNames <;>
    by_cases h2 : "following" ∈ db.tableNames <;>
      by_cases h3 : ["followed_id"] ∈ db.followingIndexes <;>
        by_cases h4 : ["follower_id"] ∈ db.followingIndexes <;>
          simp [h1, h2, h3, h4]

/-- When both tables and both indexes already exist, `build_database` is the
identity and raises nothing. -/
lemma buildDatabase_fixed (db : DBState)
    (h1 : "accounts" ∈ db.tableNames) (h2 : "following" ∈ db.tableNames)
    (h3 : ["followed_id"] ∈ db.followingIndexes)
    (h4 : ["follower_id"] ∈ db.followingIndexes) :
    buildDatabase db = .ok db := by
  unfold buildDatabase
  simp [h1, h2, h3, h4]

/-! ### Claim C6: schema idempotence -/

/-- C6: `build_database` is idempotent: the first call returns normally with
some store `d`, and calling it again on `d` raises no duplicate-table or
duplicate-index error and returns `d` itself — exactly the same set of
tables and indexes as after one call. -/
theorem buildDatabase_idempotent (db : DBState) :
    ∃ d, buildDatabase db = .ok d ∧ buildDatabase d = .ok d := by
  obtain ⟨d, hd, -, -, m1, m2, m3, m4⟩ := buildDatabase_ok db
  exact ⟨d, hd, buildDatabase_fixed d m1 m2 m3 m4⟩

/-! ### Claim C9: no edge writes without a direction argument -/

/-- C9: a `save_accounts` call with neither `followed_id` nor `follower_id`
returns normally and leaves the `following` table exactly as it was; only the
schema and the `accounts` table are touched. -/
theorem saveAccounts_no_direction_frame (db : DBState) (accounts : List Row)
    (now : String) :
    ∃ d, saveAccounts db accounts none none now = .ok d ∧
      d.following = db.following := by
  obtain ⟨b, hb, -, hfol, -, -, -, -⟩ := buildDatabase_ok db
  unfold saveAccounts
  rw [hb]
  exact ⟨_, rfl, hfol⟩

/-! ### save_accounts: structural decomposition -/

/-- A normally-returning `save_accounts` call decomposes as: the accounts
table is the fold of the replace-upsert over the transformed batch, and the
`following` table is either untouched (no direction argument truthy) or the
fold of the ignore-insert over the generated edge records. -/
lemma saveAccounts_ok_shape (db : DBState) (accounts : List Row)
    (fid gid : Option String) (now : String) (d : DBState)
    (h : saveAccounts db accounts fid gid now = .ok d) :
    d.accounts =
      (accounts.map transformerAccount).foldl accountsInsertRecord db.accounts ∧
    (((truthy fid || truthy gid) = false ∧ d.following = db.following) ∨
      (∃ es, (truthy fid || truthy gid) = true ∧
        edgeRecords fid gid now (accounts.map transformerAccount) = .ok es ∧
        d.following = es.foldl followingInsertRecord db.following)) := by
  unfold saveAccounts at h
  by_cases ha : (truthy fid && truthy gid) = true
  · rw [if_pos ha] at h
    cases h
  · rw [if_neg (by simp [ha])] at h
    obtain ⟨b, hb, hacc, hfol, -, -, -, -⟩ := buildDatabase_ok db
    rw [hb] at h
    dsimp only at h
    by_cases hor : (truthy fid || truthy gid) = true
    · rw [if_pos hor] at h
      cases her : edgeRecords fid gid now (accounts.map transformerAccount) with
      | error e => rw [her] at h; cases h
      | ok es =>
        rw [her] at h
        cases h
        exact ⟨by rw [hacc], Or.inr ⟨es, hor, rfl, by rw [hfol]⟩⟩
    · rw [if_neg hor] at h
      cases h
      refine ⟨by rw [hacc], Or.inl ⟨by simpa using hor, by rw [hfol]⟩⟩

/-! ### The edge-record generator -/

/-- An edge record always carries the sampled timestamp as `first_seen`. -/
lemma edgeRecord_first_seen (fid gid : Option String) (now : String) (a : Row)
    (ed : Edge) (h : edgeRecord fid gid now a = .ok ed) : ed.first_seen = now := by
  unfold edgeRecord at h
  cases h1 : pyOr fid (accountIdValue a) with
  | error e => rw [h1] at h; cases h
  | ok fv =>
    rw [h1] at h
    cases h2 : pyOr gid (accountIdValue a) with
    | error e => rw [h2] at h; cases h
    | ok gv => rw [h2] at h; cases h; rfl

/-- Every record produced by the generator carries the same `first_seen`. -/
lemma edgeRecords_first_seen (fid gid : Option String) (now : String) :
    ∀ (l : List Row) (es : List Edge), edgeRecords fid gid now l = .ok es →
      ∀ e ∈ es, e.first_seen = now := by
  intro l
  induction l with
  | nil => intro es h e he; cases h; cases he
  | cons a rest ih =>
    intro es h e he
    unfold edgeRecords at h
    cases h1 : edgeRecord fid gid now a with
    | error err => rw [h1] at h; cases h
    | ok ed =>
      rw [h1] at h
      cases h2 : edgeRecords fid gid now rest with
      | error err => rw [h2] at h; cases h
      | ok eds =>
        rw [h2] at h
        cases h
        rcases List.mem_cons.mp he with he1 | he2
        · rw [he1]; exact edgeRecord_first_seen fid gid now a ed h1
        · exact ih eds h2 e he2

/-- With a truthy `followed_id` and no `follower_id`, the record for an
account with a present `id` is exactly `(f, account_id, now)`. -/
lemma edgeRecord_followed_eq (f : String) (hf : f ≠ "") (now : String) (a : Row)
    (i : String) (hid : lookupKey a "id" = some i) :
    edgeRecord (some f) none now a = .ok ⟨f, i, now⟩ := by
  unfold edgeRecord pyOr accountIdValue
  simp [hf, hid]

/-- With a truthy `follower_id` and no `followed_id`, the record for an
account with a present `id` is exactly `(account_id, f, now)`. -/
lemma edgeRecord_follower_eq (f : String) (hf : f ≠ "") (now : String) (a : Row)
    (i : String) (hid : lookupKey a "id" = some i) :
    edgeRecord none (some f) now a = .ok ⟨i, f, now⟩ := by
  unfold edgeRecord pyOr accountIdValue
  simp [hf, hid]

/-- With a truthy `followed_id` and no `follower_id`, every generated record
has `followed_id = f`. -/
lemma edgeRecord_followed_shape (f : String) (hf : f ≠ "") (now : String)
    (a : Row) (ed : Edge) (h : edgeRecord (some f) none now a = .ok ed) :
    ed.followed_id = f := by
  unfold edgeRecord pyOr accountIdValue at h
  cases hl : lookupKey a "id" with
  | none => rw [hl] at h; simp [hf] at h
  | some v => rw [hl] at h; simp [hf] at h; rw [← h]

/-- With a truthy `follower_id` and no `followed_id`, every generated record
has `follower_id = f`. -/
lemma edgeRecord_follower_shape (f : String) (hf : f ≠ "") (now : String)
    (a : Row) (ed : Edge) (h : edgeRecord none (some f) now a = .ok ed) :
    ed.follower_id = f := by
  unfold edgeRecord pyOr accountIdValue at h
  cases hl : lookupKey a "id" with
  | none => rw [hl] at h; simp [hf] at h
  | some v => rw [hl] at h; simp [hf] at h; rw [← h]

/-- List version of `edgeRecord_followed_shape`. -/
lemma edgeRecords_followed_shape (f : String) (hf : f ≠ "") (now : String) :
    ∀ (l : List Row) (es : List Edge),
      edgeRecords (some f) none now l = .ok es →
      ∀ e ∈ es, e.followed_id = f := by
  intro l
  induction l with
  | nil => intro es h e he; cases h; cases he
  | cons a rest ih =>
    intro es h e he
    unfold edgeRecords at h
    cases h1 : edgeRecord (some f) none now a with
    | error err => rw [h1] at h; cases h
    | ok ed =>
      rw [h1] at h
      cases h2 : edgeRecords (some f) none now rest with
      | error err => rw [h2] at h; cases h
      | ok eds =>
        rw [h2] at h
        cases h
        rcases List.mem_cons.mp he with he1 | he2
        · rw [he1]; exact edgeRecord_followed_shape f hf now a ed h1
        · exact ih eds h2 e he2

/-- List version of `edgeRecord_follower_shape`. -/
lemma edgeRecords_follower_shape (f : String) (hf : f ≠ "") (now : String) :
    ∀ (l : List Row) (es : List Edge),
      edgeRecords none (some f) now l = .ok es →
      ∀ e ∈ es, e.follower_id = f := by
  intro l
  induction l with
  | nil => intro es h e he; cases h; cases he
  | cons a rest ih =>
    intro es h e he
    unfold edgeRecords at h
    cases h1 : edgeRecord none (some f) now a with
    | error err => rw [h1] at h; cases h
    | ok ed =>
      rw [h1] at h
      cases h2 : edgeRecords none (some f) now rest with
      | error err => rw [h2] at h; cases h
      | ok eds =>
        rw [h2] at h
        cases h
        rcases List.mem_cons.mp he with he1 | he2
        · rw [he1]; exact edgeRecord_follower_shape f hf now a ed h1
        · exact ih eds h2 e he2

/-- The record for a member account with id `i` is in the generated list
(followed direction). -/
lemma edgeRecords_followed_mem (f : String) (hf : f ≠ "") (now i : String) :
    ∀ (l : List Row) (es : List Edge) (a : Row),
      edgeRecords (some f) none now l = .ok es →
      a ∈ l → lookupKey a "id" = some i → (⟨f, i, now⟩ : Edge) ∈ es := by
  intro l
  induction l with
  | nil => intro es a _ ha; cases ha
  | cons a0 rest ih =>
    intro es a h ha hid
    unfold edgeRecords at h
    cases h1 : edgeRecord (some f) none now a0 with
    | error err => rw [h1] at h; cases h
    | ok ed =>
      rw [h1] at h
      cases h2 : edgeRecords (some f) none now rest with
      | error err => rw [h2] at h; cases h
      | ok eds =>
        rw [h2] at h
        cases h
        rcases List.mem_cons.mp ha with ha1 | ha2
        · have : edgeRecord (some f) none now a0 = .ok ⟨f, i, now⟩ :=
            edgeRecord_followed_eq f hf now a0 i (ha1 ▸ hid)
          rw [h1] at this
          cases this
          exact List.mem_cons_self _ _
        · exact List.mem_cons_of_mem _ (ih eds a h2 ha2 hid)

/-- The record for a member account with id `i` is in the generated list
(follower direction). -/
lemma edgeRecords_follower_mem (f : String) (hf : f ≠ "") (now i : String) :
    ∀ (l : List Row) (es : List Edge) (a : Row),
      edgeRecords none (some f) now l = .ok es →
      a ∈ l → lookupKey a "id" = some i → (⟨i, f, now⟩ : Edge) ∈ es := by
  intro l
  induction l with
  | nil => intro es a _ ha; cases ha
  | cons a0 rest ih =>
    intro es a h ha hid
    unfold edgeRecords at h
    cases h1 : edgeRecord none (some f) now a0 with
    | error err => rw [h1] at h; cases h
    | ok ed =>
      rw [h1] at h
      cases h2 : edgeRecords none (some f) now rest with
      | error err => rw [h2] at h; cases h
      | ok eds =>
        rw [h2] at h
        cases h
        rcases List.mem_cons.mp ha with ha1 | ha2
        · have : edgeRecord none (some f) now a0 = .ok ⟨i, f, now⟩ :=
            edgeRecord_follower_eq f hf now a0 i (ha1 ▸ hid)
          rw [h1] at this
          cases this
          exact List.mem_cons_self _ _
        · exact List.mem_cons_of_mem _ (ih eds a h2 ha2 hid)

/-! ### Conflict-ignore insert: filter lemmas -/

/-- When exactly one row with the pair `(a, b)` is present, the
conflict-ignore insert of any record preserves it exactly. -/
lemma followingInsertRecord_filter_single (a b : String) (e0 e : Edge)
    (rows : List Edge) (h : rows.filter (edgeIs a b) = [e0]) :
    (followingInsertRecord rows e).filter (edgeIs a b) = [e0] := by
  unfold followingInsertRecord
  by_cases hc :
      rows.any (fun r => r.followed_id == e.followed_id &&
        r.follower_id == e.follower_id) = true
  · rw [if_pos hc, h]
  · rw [if_neg hc, List.filter_append, h]
    have hpe : edgeIs a b e = false := by
      by_contra hpe
      have hpe' : edgeIs a b e = true := by
        cases hx : edgeIs a b e
        · exact absurd hx hpe
        · rfl
      have ha : e.followed_id = a ∧ e.follower_id = b := by
        have := hpe'
        unfold edgeIs at this
        simp at this
        exact this
      have he0 : e0 ∈ rows.filter (edgeIs a b) := by rw [h]; exact List.mem_singleton.mpr rfl
      have he0rows : e0 ∈ rows ∧ edgeIs a b e0 = true := by
        have := List.mem_filter.mp he0
        exact ⟨this.1, this.2⟩
      have : rows.any (fun r => r.followed_id == e.followed_id &&
          r.follower_id == e.follower_id) = true := by
        rw [List.any_eq_true]
        refine ⟨e0, he0rows.1, ?_⟩
        have h2 := he0rows.2
        unfold edgeIs at h2
        simp at h2
        simp [ha.1, ha.2, h2.1, h2.2]
      exact hc this
    simp [List.filter, hpe]

/-- Folding the conflict-ignore insert over any record list preserves a
uniquely-present pair row exactly. -/
lemma followingFold_filter_single (a b : String) (e0 : Edge) :
    ∀ (es rows : List Edge), rows.filter (edgeIs a b) = [e0] →
      (es.foldl followingInsertRecord rows).filter (edgeIs a b) = [e0] := by
  intro es
  induction es with
  | nil => intro rows h; exact h
  | cons e rest ih =>
    intro rows h
    exact ih _ (followingInsertRecord_filter_single a b e0 e rows h)

/-- Folding the conflict-ignore insert over a record list starting from a
state with no row for the pair `(a, b)` leaves exactly the first generated
record with that pair (or none). -/
lemma followingFold_filter_nil (a b : String) :
    ∀ (es rows : List Edge), rows.filter (edgeIs a b) = [] →
      (es.foldl followingInsertRecord rows).filter (edgeIs a b) =
        (es.filter (edgeIs a b)).take 1 := by
  intro es
  induction es with
  | nil => intro rows h; simpa using h
  | cons e rest ih =>
    intro rows h
    by_cases hp : edgeIs a b e = true
    · have ha : e.followed_id = a ∧ e.follower_id = b := by
        have := hp
        unfold edgeIs at this
        simp at this
        exact this
      have hany : rows.any (fun r => r.followed_id == e.followed_id &&
          r.follower_id == e.follower_id) = false := by
        rw [List.any_eq_false]
        intro r hr
        have hrf : edgeIs a b r = false := by
          cases hx : edgeIs a b r
          · rfl
          · exfalso
            have : r ∈ rows.filter (edgeIs a b) := List.mem_filter.mpr ⟨hr, hx⟩
            rw [h] at this
            cases this
        unfold edgeIs at hrf
        simp [ha.1, ha.2]
        intro h1
        simp [h1] at hrf
        intro h2
        rw [h2] at hrf
        simp at hrf
    
      have hrows' : (followingInsertRecord rows e).filter (edgeIs a b) = [e] := by
        unfold followingInsertRecord
        rw [if_neg (by simp [hany]), List.filter_append, h]
        simp [List.filter, hp]
      rw [List.foldl_cons]
      rw [followingFold_filter_single a b e rest _ hrows']
      rw [List.filter_cons_of_pos hp]
      simp
    · have hp' : edgeIs a b e = false := by
        cases hx : edgeIs a b e
        · rfl
        · exact absurd hx hp
      have hrows' : (followingInsertRecord rows e).filter (edgeIs a b) = [] := by
        unfold followingInsertRecord
        by_cases hc : rows.any (fun r => r.followed_id == e.followed_id &&
            r.follower_id == e.follower_id) = true
        · rw [if_pos hc]; exact h
        · rw [if_neg hc, List.filter_append, h]
          simp [List.filter, hp']
      rw [List.foldl_cons, ih _ hrows', List.filter_cons_of_neg (by simp [hp'])]

/-! ### The transform preserves the primary key -/

/-- `find?` commutes with a filter whose predicate is implied by the search
predicate. -/
lemma find?_filter_of_imp {α : Type} (p q : α → Bool)
    (himp : ∀ x, p x = true → q x = true) :
    ∀ l : List α, (l.filter q).find? p = l.find? p := by
  intro l
  induction l with
  | nil => simp
  | cons x xs ih =>
    by_cases hq : q x = true
    · rw [List.filter_cons_of_pos hq]
      by_cases hp : p x = true
      · simp [List.find?_cons, hp]
      · have hp' : p x = false := by cases hx : p x; rfl; exact absurd hx hp
        simp [List.find?_cons, hp', ih]
    · have hq' : q x = false := by cases hx : q x; rfl; exact absurd hx hq
      have hp' : p x = false := by
        cases hx : p x
        · rfl
        · exact absurd (himp x hx) hq
      rw [List.filter_cons_of_neg (by simp [hq'])]
      simp [List.find?_cons, hp', ih]

/-- `transformer_account` is the allow-list filter. -/
lemma transformerAccount_eq_filter (a : Row) :
    transformerAccount a = a.filter (fun kv => accountAllowList.contains kv.1) := by
  unfold transformerAccount
  apply List.filter_congr
  intro kv hmem
  by_cases hal : accountAllowList.contains kv.1 = true
  · have : ¬ kv.1 ∈ (a.map Prod.fst).filter (fun k => !(accountAllowList.contains k)) := by
      intro hin
      have := (List.mem_filter.mp hin).2
      rw [hal] at this
      cases this
    simp only [hal]
    simp [this]
    intro x _
    simpa using hal
  · have hal' : accountAllowList.contains kv.1 = false := by
      cases hx : accountAllowList.contains kv.1; rfl; exact absurd hx hal
    have : kv.1 ∈ (a.map Prod.fst).filter (fun k => !(accountAllowList.contains k)) := by
      refine List.mem_filter.mpr ⟨List.mem_map_of_mem Prod.fst hmem, ?_⟩
      simp only [Bool.not_eq_true']
      exact hal'
    simp only [hal']
    simp [this]
    exact ⟨⟨kv.2, hmem⟩, by simpa using hal'⟩

/-- The transform keeps the `id` field (it is on the allow-list). -/
lemma transformerAccount_lookupKey_id (a : Row) :
    lookupKey (transformerAccount a) "id" = lookupKey a "id" := by
  rw [transformerAccount_eq_filter]
  unfold lookupKey
  rw [find?_filter_of_imp]
  intro kv hkv
  have : kv.1 = "id" := by simpa using hkv
  rw [this]
  decide

/-- A nonempty filter whose members are all `v` takes to `[v]`. -/
lemma take_one_of_mem_all_eq {α : Type} (l : List α) (v : α) (hmem : v ∈ l)
    (hall : ∀ x ∈ l, x = v) : l.take 1 = [v] := by
  cases l with
  | nil => cases hmem
  | cons x xs =>
    have : x = v := hall x (List.mem_cons_self _ _)
    simp [this]

/-! ### Claim C2: edge uniqueness and first_seen preservation -/

/-- Core of C2, followed direction: after two saves with the same truthy
`followed_id`, the `(f, i)` pair has exactly one row, stamped with the first
call's timestamp. -/
lemma saveAccounts_edge_core_followed (db db1 db2 : DBState) (b1 b2 : List Row)
    (f i now1 now2 : String) (hf : f ≠ "")
    (hid : ∃ a ∈ b1, lookupKey a "id" = some i)
    (hpair : db.following.filter (edgeIs f i) = [])
    (h1 : saveAccounts db b1 (some f) none now1 = .ok db1)
    (h2 : saveAccounts db1 b2 (some f) none now2 = .ok db2) :
    db2.following.filter (edgeIs f i) = [⟨f, i, now1⟩] := by
  have htr : (truthy (some f) || truthy none) = true := by simp [truthy, hf]
  obtain ⟨-, hcase1⟩ := saveAccounts_ok_shape db b1 (some f) none now1 db1 h1
  rcases hcase1 with ⟨hfalse, -⟩ | ⟨es, -, hes, hfol⟩
  · rw [htr] at hfalse; cases hfalse
  · have hstep1 : db1.following.filter (edgeIs f i) = [(⟨f, i, now1⟩ : Edge)] := by
      rw [hfol, followingFold_filter_nil f i es db.following hpair]
      obtain ⟨a, ha, haid⟩ := hid
      have hmem : (⟨f, i, now1⟩ : Edge) ∈ es := by
        refine edgeRecords_followed_mem f hf now1 i _ es (transformerAccount a) hes
          (List.mem_map_of_mem transformerAccount ha) ?_
        rw [transformerAccount_lookupKey_id]
        exact haid
      refine take_one_of_mem_all_eq _ _ ?_ ?_
      · exact List.mem_filter.mpr ⟨hmem, by simp [edgeIs]⟩
      · intro x hx
        have hx1 := List.mem_filter.mp hx
        have hxf : x.followed_id = f :=
          edgeRecords_followed_shape f hf now1 _ es hes x hx1.1
        have hxs : x.first_seen = now1 :=
          edgeRecords_first_seen (some f) none now1 _ es hes x hx1.1
        have hxi : x.follower_id = i := by
          have := hx1.2
          unfold edgeIs at this
          simp at this
          exact this.2
        cases x
        simp_all
    obtain ⟨-, hcase2⟩ := saveAccounts_ok_shape db1 b2 (some f) none now2 db2 h2
    rcases hcase2 with ⟨hfalse, -⟩ | ⟨es2, -, -, hfol2⟩
    · rw [htr] at hfalse; cases hfalse
    · rw [hfol2]
      exact followingFold_filter_single f i _ es2 db1.following hstep1

/-- Core of C2, follower direction: symmetric, the pair is `(i, f)`. -/
lemma saveAccounts_edge_core_follower (db db1 db2 : DBState) (b1 b2 : List Row)
    (f i now1 now2 : String) (hf : f ≠ "")
    (hid : ∃ a ∈ b1, lookupKey a "id" = some i)
    (hpair : db.following.filter (edgeIs i f) = [])
    (h1 : saveAccounts db b1 none (some f) now1 = .ok db1)
    (h2 : saveAccounts db1 b2 none (some f) now2 = .ok db2) :
    db2.following.filter (edgeIs i f) = [⟨i, f, now1⟩] := by
  have htr : (truthy none || truthy (some f)) = true := by simp [truthy, hf]
  obtain ⟨-, hcase1⟩ := saveAccounts_ok_shape db b1 none (some f) now1 db1 h1
  rcases hcase1 with ⟨hfalse, -⟩ | ⟨es, -, hes, hfol⟩
  · rw [htr] at hfalse; cases hfalse
  · have hstep1 : db1.following.filter (edgeIs i f) = [(⟨i, f, now1⟩ : Edge)] := by
      rw [hfol, followingFold_filter_nil i f es db.following hpair]
      obtain ⟨a, ha, haid⟩ := hid
      have hmem : (⟨i, f, now1⟩ : Edge) ∈ es := by
        refine edgeRecords_follower_mem f hf now1 i _ es (transformerAccount a) hes
          (List.mem_map_of_mem transformerAccount ha) ?_
        rw [transformerAccount_lookupKey_id]
        exact haid
      refine take_one_of_mem_all_eq _ _ ?_ ?_
      · exact List.mem_filter.mpr ⟨hmem, by simp [edgeIs]⟩
      · intro x hx
        have hx1 := List.mem_filter.mp hx
        have hxf : x.follower_id = f :=
          edgeRecords_follower_shape f hf now1 _ es hes x hx1.1
        have hxs : x.first_seen = now1 :=
          edgeRecords_first_seen none (some f) now1 _ es hes x hx1.1
        have hxi : x.followed_id = i := by
          have := hx1.2
          unfold edgeIs at this
          simp at this
          exact this.1
        cases x
        simp_all
    obtain ⟨-, hcase2⟩ := saveAccounts_ok_shape db1 b2 none (some f) now2 db2 h2
    rcases hcase2 with ⟨hfalse, -⟩ | ⟨es2, -, -, hfol2⟩
    · rw [htr] at hfalse; cases hfalse
    · rw [hfol2]
      exact followingFold_filter_single i f _ es2 db1.following hstep1

/-- C2: for every store with no row yet for the edge, saving twice with the
same truthy `followed_id` (first conjunct) or the same truthy `follower_id`
(second conjunct) and a batch containing an account with id `i` leaves
exactly one `following` row for the pair, and its `first_seen` is the
timestamp of the first call, not the second. -/
theorem saveAccounts_edge_unique_first_seen (db db1 db2 db1' db2' : DBState)
    (b1 b2 : List Row) (f i now1 now2 : String) (hf : f ≠ "")
    (hid : ∃ a ∈ b1, lookupKey a "id" = some i) :
    (db.following.filter (edgeIs f i) = [] →
      saveAccounts db b1 (some f) none now1 = .ok db1 →
      saveAccounts db1 b2 (some f) none now2 = .ok db2 →
      db2.following.filter (edgeIs f i) = [⟨f, i, now1⟩])
    ∧
    (db.following.filter (edgeIs i f) = [] →
      saveAccounts db b1 none (some f) now1 = .ok db1' →
      saveAccounts db1' b2 none (some f) now2 = .ok db2' →
      db2'.following.filter (edgeIs i f) = [⟨i, f, now1⟩]) := by
  constructor
  · intro hpair h1 h2
    exact saveAccounts_edge_core_followed db db1 db2 b1 b2 f i now1 now2 hf hid hpair h1 h2
  · intro hpair h1 h2
    exact saveAccounts_edge_core_follower db db1' db2' b1 b2 f i now1 now2 hf hid hpair h1 h2

/-! ### Claim C10: one timestamp per call -/

/-- Everything in a conflict-ignore fold came from the start state or from
the inserted records. -/
lemma followingFold_mem :
    ∀ (es rows : List Edge) (e : Edge),
      e ∈ es.foldl followingInsertRecord rows → e ∈ rows ∨ e ∈ es := by
  intro es
  induction es with
  | nil => intro rows e h; exact Or.inl h
  | cons x rest ih =>
    intro rows e h
    rw [List.foldl_cons] at h
    rcases ih _ e h with h1 | h2
    · unfold followingInsertRecord at h1
      by_cases hc : rows.any (fun r => r.followed_id == x.followed_id &&
          r.follower_id == x.follower_id) = true
      · rw [if_pos hc] at h1; exact Or.inl h1
      · rw [if_neg hc] at h1
        rcases List.mem_append.mp h1 with h3 | h3
        · exact Or.inl h3
        · rcases List.mem_singleton.mp h3 with rfl
          exact Or.inr (List.mem_cons_self _ _)
    · exact Or.inr (List.mem_cons_of_mem _ h2)

/-- C10: every edge row present after a normally-returning `save_accounts`
call either predates the call or carries the single UTC timestamp sampled by
that call — the timestamp is computed once per call, before the edge
inserts, never once per account. -/
theorem saveAccounts_single_first_seen (db : DBState) (accounts : List Row)
    (fid gid : Option String) (now : String) (d : DBState)
    (h : saveAccounts db accounts fid gid now = .ok d) :
    d.following.all
      (fun e => decide (e ∈ db.following) || (e.first_seen == now)) = true := by
  obtain ⟨-, hc⟩ := saveAccounts_ok_shape db accounts fid gid now d h
  rw [List.all_eq_true]
  intro e he
  rcases hc with ⟨-, hfol⟩ | ⟨es, -, hes, hfol⟩
  · rw [hfol] at he
    simp [he]
  · rw [hfol] at he
    rcases followingFold_mem es db.following e he with h1 | h2
    · simp [h1]
    · have := edgeRecords_first_seen fid gid now _ es hes e h2
      simp [this]

/-- C10 (witness): a concrete two-account save stamps both edge rows with
the single sampled timestamp. -/
theorem saveAccounts_single_first_seen_witness :
    (DBState.mk ["accounts", "following"]
        [[("id", "10")], [("id", "11")]]
        [⟨"1", "10", "T0"⟩, ⟨"1", "11", "T0"⟩]
        [["followed_id"], ["follower_id"]] true).following.all
      (fun e => decide (e ∈ emptyDB.following) || (e.first_seen == "T0")) = true :=
  saveAccounts_single_first_seen emptyDB [[("id", "10")], [("id", "11")]]
    (some "1") none "T0" _ (by decide)

/-! ### Claim C5: account upsert, last write wins -/

/-- When the new record has primary key `i`, colliding is the same as having
key `i`. -/
lemma sameAccountId_eq_accIs (i : String) (rec : Row)
    (hrec : lookupKey rec "id" = some i) (r : Row) :
    sameAccountId r rec = accIs i r := by
  unfold sameAccountId accIs
  rw [hrec]
  cases hl : lookupKey r "id" <;> simp

/-- A record without primary key `i` never removes a row with key `i`. -/
lemma sameAccountId_false_of_ne (i : String) (rec r : Row)
    (hrec : accIs i rec = false) (hr : accIs i r = true) :
    sameAccountId r rec = false := by
  unfold accIs at hrec hr
  unfold sameAccountId
  cases hlr : lookupKey r "id" with
  | none => rw [hlr] at hr
  | some a =>
    rw [hlr] at hr
    have ha : a = i := by simpa using hr
    cases hlrec : lookupKey rec "id" with
    | none => simp
    | some b =>
      rw [hlrec] at hrec
      have hb : ¬ b = i := by simpa using hrec
      subst ha
      simp
      intro hab
      exact absurd hab.symm hb

/-- Upserting a record without key `i` leaves the key-`i` rows unchanged. -/
lemma accountsInsertRecord_filter_of_not (i : String) (rec : Row)
    (h : accIs i rec = false) (rows : List Row) :
    (accountsInsertRecord rows rec).filter (accIs i) = rows.filter (accIs i) := by
  unfold accountsInsertRecord
  rw [List.filter_append]
  have h1 : [rec].filter (accIs i) = [] := by simp [List.filter, h]
  rw [h1, List.append_nil, List.filter_filter]
  apply List.filter_congr
  intro r _
  by_cases hr : accIs i r = true
  · rw [hr, sameAccountId_false_of_ne i rec r h hr]
    rfl
  · have hr' : accIs i r = false := by cases hx : accIs i r; rfl; exact absurd hx hr
    rw [hr']
    simp

/-- Upserting a record with key `i` replaces all key-`i` rows with exactly
that record. -/
lemma accountsInsertRecord_filter_of_is (i : String) (rec : Row)
    (h : accIs i rec = true) (rows : List Row) :
    (accountsInsertRecord rows rec).filter (accIs i) = [rec] := by
  unfold accountsInsertRecord
  rw [List.filter_append]
  have hrec : lookupKey rec "id" = some i := by
    unfold accIs at h
    simpa using h
  have h0 : (rows.filter (fun r => !(sameAccountId r rec))).filter (accIs i) = [] := by
    rw [List.filter_filter]
    rw [List.filter_eq_nil_iff]
    intro r _
    rw [sameAccountId_eq_accIs i rec hrec r]
    cases accIs i r <;> simp
  rw [h0]
  simp [List.filter, h]

/-- Folding the upsert over records none of which has key `i` leaves the
key-`i` rows unchanged. -/
lemma accountsFold_filter_nil (i : String) :
    ∀ (rs rows : List Row), rs.filter (accIs i) = [] →
      (rs.foldl accountsInsertRecord rows).filter (accIs i) =
        rows.filter (accIs i) := by
  intro rs
  induction rs with
  | nil => intro rows _; rfl
  | cons rec rest ih =>
    intro rows h
    have hp : accIs i rec = false := by
      cases hx : accIs i rec
      · rfl
      · rw [List.filter_cons_of_pos hx] at h; cases h
    rw [List.filter_cons_of_neg (by simp [hp])] at h
    rw [List.foldl_cons, ih _ h, accountsInsertRecord_filter_of_not i rec hp rows]

/-- Folding the upsert over records exactly one of which has key `i` leaves
exactly that record as the key-`i` rows. -/
lemma accountsFold_filter_single (i : String) :
    ∀ (rs rows : List Row) (r0 : Row), rs.filter (accIs i) = [r0] →
      (rs.foldl accountsInsertRecord rows).filter (accIs i) = [r0] := by
  intro rs
  induction rs with
  | nil => intro rows r0 h; cases h
  | cons rec rest ih =>
    intro rows r0 h
    by_cases hp : accIs i rec = true
    · rw [List.filter_cons_of_pos hp] at h
      have hrec : rec = r0 := (List.cons.injEq _ _ _ _ ▸ h).1
      have hrest : rest.filter (accIs i) = [] := (List.cons.injEq _ _ _ _ ▸ h).2
      rw [List.foldl_cons, accountsFold_filter_nil i rest _ hrest,
        accountsInsertRecord_filter_of_is i rec hp rows, hrec]
    · have hp' : accIs i rec = false := by
        cases hx : accIs i rec; rfl; exact absurd hx hp
      rw [List.filter_cons_of_neg (by simp [hp'])] at h
      rw [List.foldl_cons, ih _ r0 h]

/-- C5: saving twice, where the second batch contains exactly one account
with id `i`, leaves exactly one `accounts` row with that id, and every
column of that row is the (transformed) value from the latest save —
upsert by primary key, last write wins. -/
theorem saveAccounts_upsert_last_write (db db1 db2 : DBState) (b1 b2 : List Row)
    (i : String) (a2 : Row) (now1 now2 : String)
    (hfilter : b2.filter (accIs i) = [a2])
    (_h1 : saveAccounts db b1 none none now1 = .ok db1)
    (h2 : saveAccounts db1 b2 none none now2 = .ok db2) :
    db2.accounts.filter (accIs i) = [transformerAccount a2] := by
  obtain ⟨hacc, -⟩ := saveAccounts_ok_shape db1 b2 none none now2 db2 h2
  rw [hacc]
  apply accountsFold_filter_single
  rw [List.filter_map]
  have hco : b2.filter (accIs i ∘ transformerAccount) = b2.filter (accIs i) := by
    apply List.filter_congr
    intro a _
    show accIs i (transformerAccount a) = accIs i a
    unfold accIs
    rw [transformerAccount_lookupKey_id]
  rw [hco, hfilter]
  rfl

/-- C5 (witness): re-saving an account with the same id and changed fields
leaves one row holding the latest values. -/
theorem saveAccounts_upsert_last_write_witness :
    (DBState.mk ["accounts", "following"]
        [[("id", "10"), ("username", "b")]] []
        [["followed_id"], ["follower_id"]] true).accounts.filter (accIs "10") =
      [transformerAccount [("id", "10"), ("username", "b")]] :=
  saveAccounts_upsert_last_write emptyDB
    (DBState.mk ["accounts", "following"]
      [[("id", "10"), ("username", "a")]] []
      [["followed_id"], ["follower_id"]] true)
    (DBState.mk ["accounts", "following"]
      [[("id", "10"), ("username", "b")]] []
      [["followed_id"], ["follower_id"]] true)
    [[("id", "10"), ("username", "a"), ("junk", "j")]]
    [[("id", "10"), ("username", "b")]]
    "10" [("id", "10"), ("username", "b")] "T1" "T2"
    (by decide) (by decide) (by decide)

/-- C2 (witness): two concrete saves of the same edge, in each direction. -/
theorem saveAccounts_edge_unique_first_seen_witness :
    (DBState.mk ["accounts", "following"] [[("id", "10")]]
        [⟨"1", "10", "T1"⟩] [["followed_id"], ["follower_id"]] true).following.filter
      (edgeIs "1" "10") = [⟨"1", "10", "T1"⟩]
    ∧
    (DBState.mk ["accounts", "following"] [[("id", "10")]]
        [⟨"10", "1", "T1"⟩] [["followed_id"], ["follower_id"]] true).following.filter
      (edgeIs "10" "1") = [⟨"10", "1", "T1"⟩] := by
  have h := saveAccounts_edge_unique_first_seen emptyDB
    (DBState.mk ["accounts", "following"] [[("id", "10")]]
      [⟨"1", "10", "T1"⟩] [["followed_id"], ["follower_id"]] true)
    (DBState.mk ["accounts", "following"] [[("id", "10")]]
      [⟨"1", "10", "T1"⟩] [["followed_id"], ["follower_id"]] true)
    (DBState.mk ["accounts", "following"] [[("id", "10")]]
      [⟨"10", "1", "T1"⟩] [["followed_id"], ["follower_id"]] true)
    (DBState.mk ["accounts", "following"] [[("id", "10")]]
      [⟨"10", "1", "T1"⟩] [["followed_id"], ["follower_id"]] true)
    [[("id", "10")]] [[("id", "10")]] "1" "10" "T1" "T2"
    (by decide) ⟨[("id", "10")], by simp, by decide⟩
  exact ⟨h.1 (by decide) (by decide) (by decide), h.2 (by decide) (by decide) (by decide)⟩

/-! ### Python replace: stripping a leading pattern -/

/-- A list is a prefix of itself followed by anything. -/
lemma isPrefixOf_append_self : ∀ (p t : List Char), p.isPrefixOf (p ++ t) = true := by
  intro p t
  induction p with
  | nil => simp [List.isPrefixOf]
  | cons c cs ih => simp [List.isPrefixOf, ih]

/-- With enough fuel, the scan is the identity when the pattern does not
occur. -/
lemma pyReplaceGo_no_occurrence (pat rep : List Char) :
    ∀ (fuel : Nat) (s : List Char), s.length ≤ fuel →
      hasOccurrence pat s = false → pyReplaceGo pat rep fuel s = s := by
  intro fuel
  induction fuel with
  | zero => intro s _ _; rfl
  | succ f ih =>
    intro s hlen h
    cases s with
    | nil =>
      unfold pyReplaceGo
      by_cases hp : pat = [] <;> simp [hp]
    | cons c rest =>
      unfold hasOccurrence at h
      obtain ⟨h1, h2⟩ := Bool.or_eq_false_iff.mp h
      have hp : pat ≠ [] := by
        intro hh
        subst hh
        simp [List.isPrefixOf] at h1
      unfold pyReplaceGo
      rw [if_neg hp]
      simp only [h1, Bool.false_eq_true, if_false]
      rw [ih rest (by simp at hlen; omega) h2]

/-- `str.replace` is the identity when the pattern does not occur. -/
lemma pyReplace_no_occurrence (s pat rep : List Char)
    (h : hasOccurrence pat s = false) : pyReplace s pat rep = s :=
  pyReplaceGo_no_occurrence pat rep s.length s (Nat.le_refl _) h

/-- Stripping a leading pattern with `str.replace` recovers the tail exactly
when the pattern does not occur again in the tail. -/
lemma pyReplace_strip (pat t : List Char) (hp : pat ≠ [])
    (hocc : hasOccurrence pat t = false) :
    pyReplace (pat ++ t) pat [] = t := by
  have hpre : pat.isPrefixOf (pat ++ t) = true := isPrefixOf_append_self pat t
  cases hc : pat with
  | nil => exact absurd hc hp
  | cons c cs =>
    rw [hc] at hpre
    subst hc
    unfold pyReplace
    have hlen : ((c :: cs) ++ t).length = (cs ++ t).length + 1 := by simp
    rw [hlen]
    unfold pyReplaceGo
    rw [if_neg hp]
    simp only [List.cons_append]
    rw [show ((c :: cs).isPrefixOf (c :: (cs ++ t))) = true from hpre]
    simp only [if_true, List.nil_append]
    rw [show (c :: (cs ++ t)) = (c :: cs) ++ t from rfl, List.drop_left]
    apply pyReplaceGo_no_occurrence (c :: cs) [] (cs ++ t).length t ?_ hocc
    simp

/-! ### Claim C4: pagination yields exactly the pages up to the first one
without a next link -/

/-- C4: for a path chain `p 0, p 1, ...` in which each of the first `N - 1`
responses resolves (via its `"next"` link relation) to the next path and the
`N`-th response has no `Link` header or no `"next"` relation, the generator
yields exactly the `N` (request URL, response) pairs, in page order, and then
stops.  Statuses and bodies are unconstrained: termination depends only on
the `"next"` link relation. -/
theorem requestPaginated_yields_exactly (apiUrl : List Char)
    (server : List Char → Response) :
    ∀ (N fuel : Nat) (p : Nat → List Char),
      1 ≤ N → N ≤ fuel →
      (∀ i, i + 1 < N → nextPathOf apiUrl (server (p i)) = some (p (i + 1))) →
      nextPathOf apiUrl (server (p (N - 1))) = none →
      requestPaginated apiUrl server fuel (p 0) =
        (List.range N).map
          (fun i => (apiUrl ++ "/".toList ++ p i, server (p i))) := by
  intro N
  induction N with
  | zero => intro fuel p h1; omega
  | succ n ih =>
    intro fuel p _ hfuel hstep hlast
    cases fuel with
    | zero => omega
    | succ f =>
      cases n with
      | zero =>
        simp only [requestPaginated]
        rw [hlast]
        simp [List.range_succ]
      | succ m =>
        have hnext : nextPathOf apiUrl (server (p 0)) = some (p 1) :=
          hstep 0 (by omega)
        simp only [requestPaginated]
        rw [hnext]
        dsimp only
        rw [ih f (fun i => p (i + 1)) (by omega) (by omega)
          (fun i hi => hstep (i + 1) (by omega)) hlast]
        rw [show List.range (m + 1 + 1) = 0 :: (List.range (m + 1)).map Nat.succ from
          List.range_succ_eq_map (m + 1)]
        simp only [List.map_cons, List.map_map]
        rfl

/-- Responses used by the C4 witness: page 1 carries a `Link` header with a
`"next"` relation; page 2 has no `Link` header at all and a non-2xx status,
underlining that termination ignores status and body. -/
def c4RespA : Response :=
  ⟨200, ["Link".toList], [("next".toList, "https://d/api/v1/b".toList)], "p1".toList⟩

def c4RespB : Response := ⟨404, [], [], "p2".toList⟩

def c4Server : List Char → Response :=
  fun q => if q == "a".toList then c4RespA else c4RespB

def c4Paths : Nat → List Char :=
  fun i => if i == 0 then "a".toList else "b".toList

/-- C4 (witness): a concrete two-page run yields exactly two pairs in order. -/
theorem requestPaginated_yields_exactly_witness :
    requestPaginated "https://d/api/v1".toList c4Server 2 (c4Paths 0) =
      (List.range 2).map
        (fun i =>
          ("https://d/api/v1".toList ++ "/".toList ++ c4Paths i,
            c4Server (c4Paths i))) := by
  refine requestPaginated_yields_exactly "https://d/api/v1".toList c4Server 2 2
    c4Paths (by omega) (by omega) ?_ (by decide)
  intro i hi
  have hi0 : i = 0 := by omega
  subst hi0
  decide

/-! ### Claim C7: following the next link -/

/-- C7 (amended): when a response carries a `Link` header with a `"next"`
relation whose URL is the base prefix `f"{api_url}/"` followed by a tail in
which that prefix does not occur again, the continuation path is exactly the
stripped tail, and the following request is sent to exactly the next link's
URL. -/
theorem requestPaginated_next_url (apiUrl : List Char)
    (server : List Char → Response) (fuel : Nat) (path tail nu : List Char)
    (r : Response) (hr : server path = r)
    (hlink : r.headerNames.contains "Link".toList = true)
    (hnext : lookupRel r.links "next".toList = some nu)
    (hpre : nu = apiUrl ++ "/".toList ++ tail)
    (hocc : hasOccurrence (apiUrl ++ "/".toList) tail = false) :
    nextPathOf apiUrl r = some tail ∧
    (requestPaginated apiUrl server (fuel + 2) path).get? 1 =
      some (nu, server tail) := by
  have hpat : apiUrl ++ "/".toList ≠ [] := by
    intro hh
    have hlen := congrArg List.length hh
    simp at hlen
  have hstep : nextPathOf apiUrl r = some tail := by
    unfold nextPathOf
    rw [hnext]
    simp only [hlink, Bool.not_true, Option.isSome_some, Option.isNone_some,
      Bool.or_self, Bool.false_or, Bool.false_eq_true, if_false]
    rw [hpre, pyReplace_strip (apiUrl ++ "/".toList) tail hpat hocc]
  refine ⟨hstep, ?_⟩
  simp only [requestPaginated]
  rw [hr, hstep]
  dsimp only
  rw [hpre]
  rfl

/-- Response and server for the C7 witness. -/
def c7Resp : Response :=
  ⟨200, ["Link".toList],
    [("next".toList, "https://d/api/v1/nextpage".toList)], []⟩

def c7Server : List Char → Response :=
  fun q => if q == "s".toList then c7Resp else ⟨200, [], [], []⟩

/-- C7 (witness): a concrete next link one page in. -/
theorem requestPaginated_next_url_witness :
    nextPathOf "https://d/api/v1".toList c7Resp = some "nextpage".toList ∧
    (requestPaginated "https://d/api/v1".toList c7Server 2 "s".toList).get? 1 =
      some ("https://d/api/v1/nextpage".toList, c7Server "nextpage".toList) :=
  requestPaginated_next_url "https://d/api/v1".toList c7Server 0 "s".toList
    "nextpage".toList "https://d/api/v1/nextpage".toList c7Resp (by decide)
    (by decide) (by decide) (by decide) (by decide)

/-- Response and server for the C7 counterexample. -/
def c7BadResp : Response :=
  ⟨200, ["Link".toList],
    [("next".toList, "https://d/api/v1/a?u=https://d/api/v1/b".toList)], []⟩

def c7BadServer : List Char → Response :=
  fun q => if q == "x".toList then c7BadResp else ⟨200, [], [], []⟩

/-- C7 (counterexample): the source strips the base prefix with Python
`str.replace`, which removes every occurrence, so a next URL that begins
with the base prefix but contains it again (here in a query parameter) is
mangled: the second request goes to `https://d/api/v1/a?u=b`, not to the
next link's URL `https://d/api/v1/a?u=https://d/api/v1/b`. -/
theorem requestPaginated_replace_mangles_url :
    ("https://d/api/v1/".toList).isPrefixOf
        "https://d/api/v1/a?u=https://d/api/v1/b".toList = true
    ∧ nextPathOf "https://d/api/v1".toList c7BadResp = some "a?u=b".toList
    ∧ ((requestPaginated "https://d/api/v1".toList c7BadServer 2
          "x".toList).get? 1).map Prod.fst = some "https://d/api/v1/a?u=b".toList
    ∧ ¬ ("https://d/api/v1/a?u=b".toList =
          "https://d/api/v1/a?u=https://d/api/v1/b".toList) := by
  decide
